import Mathlib

/-!
# Verification of the `shard-archived` binding layer

Shallow embedding of `src/deps/sleigh/arbitrary_manager.cc` and
`src/src/tabled/local-bfd.h`.  Machine integers (`uint64_t`) are modelled as
`Nat` with an explicit `% U64` wherever the C++ arithmetic can wrap; `int32_t`
loop counters that only ever count down from a non-negative value are modelled
by the corresponding `Nat`.  Pointers that may be null are modelled as
`Option`.  The third-party SLEIGH engine and BFD library are out of scope for
the repository and enter the model as oracle parameters (a decode function, a
context-set result, a `bfd` record), exactly at the call sites where the
binding invokes them.
-/

/-- `2^64`, the modulus of `uint64_t` arithmetic. -/
def U64 : Nat := 2 ^ 64

/-- One loaded memory region: C++ `ArbitraryLoader::MemoryDescription`
(`base_address`, `size`, raw `data` pointer).  The byte buffer is modelled as
a function from region-relative offset to byte value, matching the code's
`region->data[i]` reads. -/
structure MemoryDescription where
  base_address : Nat
  size : Nat
  data : Nat → Nat

/-- The loader state: C++ `ArbitraryLoader` members.  `max_addr` starts at 0,
`min_addr` at `0xffffffffffffffff`, `regions` empty. -/
structure ArbitraryLoader where
  max_addr : Nat
  min_addr : Nat
  regions : List MemoryDescription

/-- A freshly constructed `ArbitraryLoader`. -/
def initialLoader : ArbitraryLoader :=
  { max_addr := 0, min_addr := U64 - 1, regions := [] }

/-- The containment test inside `ArbitraryLoader::region_from_address`:
a region is skipped when `base_address > address` or when
`base_address + size <= address` (the sum computed in `uint64_t`), and owns
the address otherwise. -/
def regionOwns (r : MemoryDescription) (a : Nat) : Bool :=
  if r.base_address > a then false
  else if (r.base_address + r.size) % U64 ≤ a then false
  else true

/-- C++ `ArbitraryLoader::region_from_address`: linear scan over `regions`
in registration order, returning the first region owning `a`, null (`none`)
otherwise. -/
def region_from_address (regions : List MemoryDescription) (a : Nat) :
    Option MemoryDescription :=
  List.find? (fun r => regionOwns r a) regions

/-- C++ `ArbitraryLoader::load_region`: appends a region and updates the
running minimum and maximum mapped addresses (`address + size` computed in
`uint64_t`). -/
def load_region (ld : ArbitraryLoader) (address size : Nat) (input_data : Nat → Nat) :
    ArbitraryLoader :=
  { regions := ld.regions ++ [{ base_address := address, size := size, data := input_data }],
    min_addr := if address < ld.min_addr then address else ld.min_addr,
    max_addr := if (address + size) % U64 > ld.max_addr then (address + size) % U64 else ld.max_addr }

/-- C++ `ArbitraryLoader::base`: fold over the regions keeping the smallest
`base_address`, starting from `UINT64_MAX`. -/
def ArbitraryLoader.base (ld : ArbitraryLoader) : Nat :=
  ld.regions.foldl (fun b r => if r.base_address < b then r.base_address else b) (U64 - 1)

/-- The `while (bytes_remaining > 0)` loop of `ArbitraryLoader::loadFill`.
Each outer iteration looks up the region owning the current search address;
when none owns it one zero byte is written, otherwise the inner `for` loop
copies from that region until the region ends or the request is satisfied.
The `if h : idx < r.size` guard is exactly the first conjunct of the inner
`for` condition at entry; when the lookup succeeds it always holds (see
`regionOwns_idx_lt`), so the `else` branch is dead code (in C++ the loop
would not terminate there).  `search_address` increments in `uint64_t`. -/
def loadFillLoop (regions : List MemoryDescription) : Nat → Nat → List Nat
  | 0, _ => []
  | n + 1, sa =>
    match region_from_address regions sa with
    | none => 0 :: loadFillLoop regions n ((sa + 1) % U64)
    | some r =>
      if h : sa - r.base_address < r.size then
        (List.range (min (r.size - (sa - r.base_address)) (n + 1))).map
            (fun j => r.data (sa - r.base_address + j)) ++
          loadFillLoop regions (n + 1 - min (r.size - (sa - r.base_address)) (n + 1))
            ((sa + min (r.size - (sa - r.base_address)) (n + 1)) % U64)
      else []
  termination_by n _ => n
  decreasing_by
  · exact Nat.lt_succ_of_le (Nat.le_refl n)
  · have h1 : 1 ≤ min (r.size - (sa - r.base_address)) (n + 1) := by omega
    omega

/-- C++ `ArbitraryLoader::loadFill`.  `ptr` is the caller's buffer of
pre-seeded bytes (`pre`), `size` the signed request length, `addr.getOffset()`
the `uint64_t` start address.  When `search_address > max_addr` the function
returns at once, leaving the buffer untouched; otherwise the loop overwrites
the first `size` bytes and the rest of the buffer keeps its seed. -/
def loadFill (ld : ArbitraryLoader) (addr : Nat) (size : Int) (pre : List Nat) : List Nat :=
  if addr > ld.max_addr then pre
  else loadFillLoop ld.regions size.toNat addr ++ List.drop size.toNat pre

/-- `ghidra::VarnodeData` as seen by the emitter callbacks: an address-space
name (the bytes of `space->getName()`), a `uint64_t` offset and size. -/
structure VarnodeData where
  spaceName : List Nat
  offset : Nat
  size : Nat

/-- One micro-operation delivered by the engine's `PcodeEmit::dump` callback:
opcode tag, optional output varnode, input varnodes. -/
structure PcodeOpData where
  opcode : Nat
  output : Option VarnodeData
  inputs : List VarnodeData

/-- The decode result the SLEIGH engine produces for one address: the value
returned by `oneInstruction` (`length`), the text pair delivered to
`AssemblyEmit::dump`, and the op list delivered to `PcodeEmit::dump`.
`printAssembly` and `oneInstruction` parse the same bytes, so both are views
of this one oracle value; a `none` result models the engine throwing
`BadDataError` (no valid encoding at the address). -/
structure EngineInsn where
  length : Nat
  text : String
  body : String
  ops : List PcodeOpData

/-- libc `strncpy` into a fixed `cap`-byte field: copies source bytes until
the source ends or `cap` bytes are written, zero-filling the remainder (and
writing no terminator when the source is at least `cap` bytes long).  The
source list holds the bytes of the C string before its NUL. -/
def strncpyBytes : Nat → List Nat → List Nat
  | 0, _ => []
  | cap + 1, [] => 0 :: strncpyBytes cap []
  | cap + 1, b :: rest => b :: strncpyBytes cap rest

/-- Exported C struct `VarnodeDesc`: `char space[16]` (modelled as the 16
bytes of the array), `uint64_t offset`, `uint64_t size`. -/
structure VarnodeDesc where
  space : List Nat
  offset : Nat
  size : Nat
deriving DecidableEq

/-- Exported C struct `PcodeOp`. -/
structure PcodeOp where
  opcode : Nat
  output : Option VarnodeDesc
  input_len : Nat
  inputVarnodes : List VarnodeDesc
deriving DecidableEq

/-- Exported C struct `InsnDesc`.  The struct is allocated with `new
(std::nothrow)` and `address` is only ever assigned by `lift_insn`;
`none` models the field being left unassigned (indeterminate heap memory). -/
structure InsnDesc where
  op_count : Nat
  ops : List PcodeOp
  size : Nat
  address : Option Nat
  insn : Option String
  insn_len : Nat
  body : Option String
  body_len : Nat

/-- Exported C struct `RegisterDesc`: `char name[64]` plus a varnode. -/
structure RegisterDesc where
  name : List Nat
  varnode : VarnodeDesc
deriving DecidableEq

/-- Exported C struct `RegisterList`. -/
structure RegisterList where
  register_count : Nat
  registers : List RegisterDesc
deriving DecidableEq

/-- The copy `ArbitraryPcodeEmitter::dump` makes of one varnode: offset and
size copied exactly, the space name via `strncpy(dst, src, 16)`. -/
def varnodeDescOf (v : VarnodeData) : VarnodeDesc :=
  { space := strncpyBytes 16 v.spaceName, offset := v.offset, size := v.size }

/-- C++ `ArbitraryPcodeEmitter::dump`: appends one `PcodeOp` record to the
`pcode_ops` vector, copying each input varnode and the output varnode when
the engine reports one (`op.output = nullptr`, i.e. `none`, otherwise). -/
def ArbitraryPcodeEmitter.dump (pcode_ops : List PcodeOp) (addr : Nat)
    (opcode : Nat) (output : Option VarnodeData) (inputs : List VarnodeData) :
    List PcodeOp :=
  let op : PcodeOp :=
    { opcode := opcode, output := output.map varnodeDescOf,
      input_len := inputs.length, inputVarnodes := inputs.map varnodeDescOf }
  pcode_ops ++ [op]

/-- The record `ArbitraryPcodeEmitter::dump` appends for one callback:
used to state what a whole decode leaves in the collector. -/
def pcodeOpRecOf (d : PcodeOpData) : PcodeOp :=
  { opcode := d.opcode, output := d.output.map varnodeDescOf,
    input_len := d.inputs.length, inputVarnodes := d.inputs.map varnodeDescOf }

/-- C++ `ArbitraryAsmEmitter` instance variables.  `insn_text`/`insn_body`
are `strdup`ed pointers (null before any dump), modelled as `Option`. -/
structure ArbitraryAsmEmitter where
  insn_size : Nat
  address : Nat
  insn_text : Option String
  insn_text_len : Nat
  insn_body : Option String
  insn_body_len : Nat
deriving DecidableEq

/-- The state `ArbitraryAsmEmitter::clear` leaves the collector in:
all counters zero, both text pointers null. -/
def ArbitraryAsmEmitter.clear : ArbitraryAsmEmitter :=
  { insn_size := 0, address := 0, insn_text := none, insn_text_len := 0,
    insn_body := none, insn_body_len := 0 }

/-- C++ `ArbitraryAsmEmitter::dump`: records the instruction's address
offset and duplicates both strings, recording their lengths.  `insn_size`
is untouched — the session manager fills it in afterwards. -/
def ArbitraryAsmEmitter.dump (e : ArbitraryAsmEmitter) (addr : Nat)
    (text body : String) : ArbitraryAsmEmitter :=
  { e with
    address := addr
    insn_text := some text
    insn_text_len := text.length
    insn_body := some body
    insn_body_len := body.length }

/-- C++ `ArbitraryManager` state: the loader, the two collectors, and the
decode cursor `current_translate_address` (zero-initialised). -/
structure ArbitraryManager where
  loader : ArbitraryLoader
  pcode_emitter : List PcodeOp
  asm_emitter : ArbitraryAsmEmitter
  current_translate_address : Nat

/-- C++ `ArbitraryManager::to_insn_desc`: copies the pcode vector and the
asm collector fields into a fresh `InsnDesc`.  The `address` field of the
freshly allocated struct is never assigned here. -/
def to_insn_desc (mgr : ArbitraryManager) : InsnDesc :=
  { op_count := mgr.pcode_emitter.length,
    ops := mgr.pcode_emitter,
    size := mgr.asm_emitter.insn_size,
    address := none,
    insn := mgr.asm_emitter.insn_text,
    insn_len := mgr.asm_emitter.insn_text_len,
    body := mgr.asm_emitter.insn_body,
    body_len := mgr.asm_emitter.insn_body_len }

/-- C++ `ArbitraryManager::translate_next`: resets a zero cursor to
`loader.base()`, decodes there (`printAssembly` then `oneInstruction`,
both views of the oracle `eng`), stores the decoded length in the asm
collector, advances the cursor by the decoded length (`uint64_t` addition),
assembles the descriptor, and clears both collectors.  When the engine
throws (`eng _ = none`) the exception propagates (`Except.error`): the
cursor keeps the value it had after the zero-reset and nothing is cleared. -/
def translate_next (eng : Nat → Option EngineInsn) (mgr : ArbitraryManager) :
    Except Unit InsnDesc × ArbitraryManager :=
  let c0 := if mgr.current_translate_address = 0 then mgr.loader.base
            else mgr.current_translate_address
  match eng c0 with
  | none => (Except.error (), { mgr with current_translate_address := c0 })
  | some i =>
    let asm1 := mgr.asm_emitter.dump c0 i.text i.body
    let pcode1 := i.ops.foldl
      (fun acc d => ArbitraryPcodeEmitter.dump acc c0 d.opcode d.output d.inputs)
      mgr.pcode_emitter
    let asm2 := { asm1 with insn_size := i.length }
    let mgr2 :=
      { mgr with
        asm_emitter := asm2
        pcode_emitter := pcode1
        current_translate_address := (c0 + i.length) % U64 }
    (Except.ok (to_insn_desc mgr2),
      { mgr2 with pcode_emitter := [], asm_emitter := ArbitraryAsmEmitter.clear })

/-- C++ `ArbitraryManager::lift_insn`: decodes at the caller-given address
without touching the cursor, assigns the result's `address` field, and
clears both collectors.  The `catch (ghidra::BadDataError&)` turns an
engine failure into a null result (`Except.ok none`): the failure is
swallowed before any dump happened, so the state is returned unchanged. -/
def lift_insn (eng : Nat → Option EngineInsn) (mgr : ArbitraryManager)
    (addr : Nat) : Except Unit (Option InsnDesc) × ArbitraryManager :=
  match eng addr with
  | none => (Except.ok none, mgr)
  | some i =>
    let asm1 := mgr.asm_emitter.dump addr i.text i.body
    let pcode1 := i.ops.foldl
      (fun acc d => ArbitraryPcodeEmitter.dump acc addr d.opcode d.output d.inputs)
      mgr.pcode_emitter
    let asm2 := { asm1 with insn_size := i.length }
    let mgr2 := { mgr with asm_emitter := asm2, pcode_emitter := pcode1 }
    let out := { to_insn_desc mgr2 with address := some addr }
    (Except.ok (some out),
      { mgr2 with pcode_emitter := [], asm_emitter := ArbitraryAsmEmitter.clear })

/-- C++ `ArbitraryManager::get_all_registers`: copies the engine's register
catalog (a map, here its entry sequence) into a flat `RegisterList`; names
via `strncpy(reg->name, ..., 64)`, space names via `strncpy(..., 16)`. -/
def get_all_registers (register_list : List (VarnodeData × List Nat)) :
    RegisterList :=
  { register_count := register_list.length,
    registers := register_list.map (fun p =>
      { name := strncpyBytes 64 p.2, varnode := varnodeDescOf p.1 }) }

/-- C wrapper `arbitrary_manager_context_var_set_default`: forwards to
`ContextDatabase::setVariableDefault` (oracle `setVariableDefault`, which may
throw `ghidra::LowlevelError` with an `explain` string, modelled as
`Except.error`).  The wrapper catches the error, prints one line to stdout,
and returns normally; the result pairs the C `void` return with the list of
lines written.  The `Except` in the result type is the foreign-call failure
channel: the wrapper never uses it. -/
def arbitrary_manager_context_var_set_default
    (setVariableDefault : String → Nat → Except String Unit)
    (key : String) (value : Nat) : Except String (Unit × List String) :=
  match setVariableDefault key value with
  | Except.ok _ => Except.ok ((), [])
  | Except.error err => Except.ok ((), ["[libsla ERROR]: " ++ err])

/-- Both decode collectors in their cleared/empty state: the pcode vector
empty and the asm collector as `clear` leaves it. -/
def collectorsEmpty (mgr : ArbitraryManager) : Prop :=
  mgr.pcode_emitter = [] ∧ mgr.asm_emitter = ArbitraryAsmEmitter.clear

/-- The BFD object-file handle fields read by `src/src/tabled/local-bfd.h`:
`section_count` (read by the library macro `bfd_count_sections`),
`start_address` (read by `bfd_get_start_address`), and the raw
`sections`/`section_last` pointers (modelled by their pointer values). -/
structure Bfd where
  section_count : Nat
  start_address : Nat
  sections : Nat
  section_last : Nat

/-- Library accessor `bfd_count_sections`: reads `abfd->section_count`. -/
def bfd_count_sections (abfd : Bfd) : Nat := abfd.section_count

/-- Library accessor `bfd_get_start_address`: reads `abfd->start_address`. -/
def bfd_get_start_address (abfd : Bfd) : Nat := abfd.start_address

/-- `get_section_count` from `local-bfd.h`: `(uint64_t)bfd_count_sections(abfd)`
(the cast widens `unsigned int` to `uint64_t`, preserving the value). -/
def get_section_count (abfd : Bfd) : Nat := bfd_count_sections abfd

/-- `get_start_address` from `local-bfd.h`:
`(uint64_t)bfd_get_start_address(abfd)`. -/
def get_start_address (abfd : Bfd) : Nat := bfd_get_start_address abfd

/-- `get_sections` from `local-bfd.h`: returns `abfd->sections` unchanged. -/
def get_sections (abfd : Bfd) : Nat := abfd.sections

/-- `get_last_section` from `local-bfd.h`: returns `abfd->section_last`
unchanged. -/
def get_last_section (abfd : Bfd) : Nat := abfd.section_last

/-- Spec-side reading of the object-file accessors ("pass through directly
to the object-file library's own structures with no transformation"): raw
reads of the `bfd` structure's fields. -/
def sectionCountSpec (abfd : Bfd) : Nat := abfd.section_count

/-- Spec-side reading of `get_start_address`: the raw `start_address`
field. -/
def startAddressSpec (abfd : Bfd) : Nat := abfd.start_address

/-- Spec-side reading of `get_sections`: the raw first-section pointer. -/
def sectionsSpec (abfd : Bfd) : Nat := abfd.sections

/-- Spec-side reading of `get_last_section`: the raw last-section pointer. -/
def lastSectionSpec (abfd : Bfd) : Nat := abfd.section_last

/-- An example context-set oracle that always fails with explain string
`boom`. -/
def exCtxSet : String → Nat → Except String Unit := fun _ _ => Except.error "boom"

/-- An example register catalog entry: a 70-byte register name and a
20-byte space name, both longer than their fields' capacities. -/
def exRegs : List (VarnodeData × List Nat) :=
  [({ spaceName := List.replicate 20 66, offset := 8, size := 4 }, List.replicate 70 65)]

/-- Concrete byte buffer `AA BB CC DD` for the worked examples. -/
def exData : Nat → Nat := fun i => [0xAA, 0xBB, 0xCC, 0xDD].getD i 0

/-- The single example region `[base=0x1000, len=4, bytes=AA BB CC DD]`. -/
def exRegion : MemoryDescription :=
  { base_address := 0x1000, size := 4, data := exData }

/-- A second region overlapping `exRegion`, registered after it. -/
def exRegionB : MemoryDescription :=
  { base_address := 0x0FFE, size := 4, data := fun _ => 0x11 }

/-- Loader holding exactly `exRegion`, built through `load_region`. -/
def exLoader : ArbitraryLoader := load_region initialLoader 0x1000 4 exData

/-- Example decode oracle: a 2-byte instruction at `0x1000` followed by a
3-byte instruction at `0x1002`; no valid encoding elsewhere. -/
def exEngine : Nat → Option EngineInsn := fun a =>
  if a = 0x1000 then some { length := 2, text := "t1", body := "b1", ops := [] }
  else if a = 0x1002 then some { length := 3, text := "t2", body := "b2", ops := [] }
  else none

/-- A session over `exLoader` that has not decoded yet (cursor zero,
collectors cleared). -/
def exManager : ArbitraryManager :=
  { loader := exLoader, pcode_emitter := [],
    asm_emitter := ArbitraryAsmEmitter.clear, current_translate_address := 0 }

theorem region_from_address_some {regions : List MemoryDescription} {a : Nat}
    {r : MemoryDescription} (h : region_from_address regions a = some r) :
    regionOwns r a = true ∧ r ∈ regions := by
  unfold region_from_address at h
  refine ⟨?_, List.mem_of_find?_eq_some h⟩
  simpa using List.find?_some h

theorem region_from_address_none {regions : List MemoryDescription} {a : Nat}
    (h : region_from_address regions a = none) :
    ∀ r ∈ regions, regionOwns r a = false := by
  unfold region_from_address at h
  intro r hr
  simpa using List.find?_eq_none.mp h r hr

theorem regionOwns_iff (r : MemoryDescription) (a : Nat) :
    regionOwns r a = true ↔
      r.base_address ≤ a ∧ a < (r.base_address + r.size) % U64 := by
  unfold regionOwns
  split
  · simp; omega
  · split
    · simp; omega
    · simp; omega

theorem regionOwns_idx_lt {r : MemoryDescription} {a : Nat}
    (h : regionOwns r a = true) : a - r.base_address < r.size := by
  rw [regionOwns_iff] at h
  have hmod : (r.base_address + r.size) % U64 ≤ r.base_address + r.size :=
    Nat.mod_le _ _
  omega

theorem regionOwns_no_wrap {r : MemoryDescription} {a : Nat}
    (h : regionOwns r a = true)
    (hb : r.base_address < U64) (hs : r.size < U64) :
    r.base_address + r.size < U64 := by
  rw [regionOwns_iff] at h
  by_contra hge
  push_neg at hge
  have hlt : r.base_address + r.size < 2 * U64 := by omega
  have : (r.base_address + r.size) % U64 = r.base_address + r.size - U64 := by
    rw [Nat.mod_eq_sub_mod hge, Nat.mod_eq_of_lt (by omega)]
  omega

theorem loadFillLoop_length (regions : List MemoryDescription) :
    ∀ n sa, (loadFillLoop regions n sa).length = n := by
  intro n
  induction n using Nat.strong_induction_on with
  | _ n ih =>
    intro sa
    match n with
    | 0 => simp [loadFillLoop]
    | n + 1 =>
      rw [loadFillLoop]
      split
      · simp [ih n (Nat.lt_succ_self n)]
      · rename_i r hf
        have howns : regionOwns r sa = true := (region_from_address_some hf).1
        have hidx : sa - r.base_address < r.size := regionOwns_idx_lt howns
        rw [dif_pos hidx]
        have hk1 : 1 ≤ min (r.size - (sa - r.base_address)) (n + 1) := by omega
        have hkle : min (r.size - (sa - r.base_address)) (n + 1) ≤ n + 1 :=
          Nat.min_le_right _ _
    -- the recursive part has strictly smaller fuel
        rw [List.length_append, List.length_map, List.length_range,
          ih (n + 1 - min (r.size - (sa - r.base_address)) (n + 1)) (by omega)]
        omega

theorem loadFillLoop_getD (regions : List MemoryDescription)
    (hwf : ∀ r ∈ regions, r.base_address < U64 ∧ r.size < U64) :
    ∀ n sa, sa < U64 → ∀ j, j < n →
      (∃ r ∈ regions, regionOwns r ((sa + j) % U64) = true ∧
          (loadFillLoop regions n sa).getD j 0 =
            r.data ((sa + j) % U64 - r.base_address)) ∨
      ((∀ r ∈ regions, regionOwns r ((sa + j) % U64) = false) ∧
          (loadFillLoop regions n sa).getD j 0 = 0) := by
  have hU : 0 < U64 := by simp [U64]
  intro n
  induction n using Nat.strong_induction_on with
  | _ n ih =>
    intro sa hsa j hj
    match n, hj with
    | n + 1, hj =>
      rw [loadFillLoop]
      split
      · rename_i hf
        match j with
        | 0 =>
          right
          rw [Nat.add_zero, Nat.mod_eq_of_lt hsa]
          exact ⟨region_from_address_none hf, rfl⟩
        | m + 1 =>
          have hrec := ih n (Nat.lt_succ_self n) ((sa + 1) % U64)
            (Nat.mod_lt _ hU) m (by omega)
          have harith : ((sa + 1) % U64 + m) % U64 = (sa + (m + 1)) % U64 := by
            rw [Nat.mod_add_mod]
            congr 1
            omega
          rw [harith] at hrec
          simpa [List.getD_cons_succ] using hrec
      · rename_i r hf
        obtain ⟨howns, hmem⟩ := region_from_address_some hf
        have hidx : sa - r.base_address < r.size := regionOwns_idx_lt howns
        obtain ⟨hb, hs⟩ := hwf r hmem
        have hnw : r.base_address + r.size < U64 := regionOwns_no_wrap howns hb hs
        have hba : r.base_address ≤ sa ∧ sa < (r.base_address + r.size) % U64 :=
          (regionOwns_iff r sa).mp howns
        have hsa_lt : sa < r.base_address + r.size := by
          have := hba.2
          rwa [Nat.mod_eq_of_lt hnw] at this
        rw [dif_pos hidx]
        by_cases hjk : j < min (r.size - (sa - r.base_address)) (n + 1)
        · -- position inside the block copied from region `r`
          have hlen : j < ((List.range (min (r.size - (sa - r.base_address)) (n + 1))).map
              (fun j => r.data (sa - r.base_address + j))).length := by
            simpa using hjk
          rw [List.getD_append _ _ 0 j hlen]
          have hval : ((List.range (min (r.size - (sa - r.base_address)) (n + 1))).map
              (fun j => r.data (sa - r.base_address + j))).getD j 0 =
              r.data (sa - r.base_address + j) := by
            simp [List.getD, List.getElem?_map, List.getElem?_range, hjk]
          rw [hval]
          left
          refine ⟨r, hmem, ?_, ?_⟩
          · have hsaj : sa + j < r.base_address + r.size := by omega
            rw [Nat.mod_eq_of_lt (by omega)]
            rw [regionOwns_iff]
            refine ⟨by omega, ?_⟩
            rw [Nat.mod_eq_of_lt hnw]
            omega
          · rw [Nat.mod_eq_of_lt (by omega)]
            congr 1
            omega
        · -- position past the copied block: recurse
          push_neg at hjk
          have hk1 : 1 ≤ min (r.size - (sa - r.base_address)) (n + 1) := by omega
          have hlen : ((List.range (min (r.size - (sa - r.base_address)) (n + 1))).map
              (fun j => r.data (sa - r.base_address + j))).length ≤ j := by
            simpa using hjk
          rw [List.getD_append_right _ _ 0 j hlen]
          have hsak : sa + min (r.size - (sa - r.base_address)) (n + 1) < U64 := by
            omega
          have hrec := ih (n + 1 - min (r.size - (sa - r.base_address)) (n + 1)) (by omega)
            ((sa + min (r.size - (sa - r.base_address)) (n + 1)) % U64)
            (Nat.mod_lt _ hU) (j - min (r.size - (sa - r.base_address)) (n + 1)) (by omega)
          have harith : ((sa + min (r.size - (sa - r.base_address)) (n + 1)) % U64 +
              (j - min (r.size - (sa - r.base_address)) (n + 1))) % U64 = (sa + j) % U64 := by
            rw [Nat.mod_add_mod]
            congr 1
            omega
          rw [harith] at hrec
          simpa using hrec

theorem regionOwns_false_iff (r : MemoryDescription) (a : Nat) :
    regionOwns r a = false ↔
      ¬(r.base_address ≤ a ∧ a < (r.base_address + r.size) % U64) := by
  rw [← regionOwns_iff]
  cases h : regionOwns r a <;> simp [h]

theorem find?_first_match {α : Type} (p : α → Bool) :
    ∀ (l : List α) (x : α), l.find? p = some x →
      p x = true ∧ ∃ l1 l2, l = l1 ++ x :: l2 ∧ ∀ y ∈ l1, p y = false := by
  intro l
  induction l with
  | nil => intro x h; simp at h
  | cons hd tl ih =>
    intro x h
    by_cases hp : p hd
    · rw [List.find?_cons_of_pos _ hp] at h
      cases h
      exact ⟨hp, [], tl, rfl, by simp⟩
    · rw [List.find?_cons_of_neg _ hp] at h
      obtain ⟨hpx, l1, l2, heq, hl1⟩ := ih x h
      refine ⟨hpx, hd :: l1, l2, by rw [heq]; rfl, ?_⟩
      intro y hy
      rcases List.mem_cons.mp hy with hy | hy
      · subst hy; simpa using hp
      · exact hl1 y hy

/-- C6: for every address contained in at least one loaded region, lookup
returns the first-registered region whose containment test
(`base_address <= a` and `base_address + size > a`, the sum in `uint64_t`)
holds; when no loaded region contains the address, lookup returns null. -/
theorem region_lookup_first_match (regions : List MemoryDescription) (a : Nat) :
    (∀ r, region_from_address regions a = some r →
        (r.base_address ≤ a ∧ a < (r.base_address + r.size) % U64) ∧
        ∃ l1 l2, regions = l1 ++ r :: l2 ∧
          ∀ r' ∈ l1, ¬(r'.base_address ≤ a ∧ a < (r'.base_address + r'.size) % U64)) ∧
    ((∃ r ∈ regions, r.base_address ≤ a ∧ a < (r.base_address + r.size) % U64) →
        ∃ r, region_from_address regions a = some r) ∧
    (region_from_address regions a = none ↔
        ∀ r ∈ regions, ¬(r.base_address ≤ a ∧ a < (r.base_address + r.size) % U64)) := by
  refine ⟨?_, ?_, ?_, ?_⟩
  · intro r h
    unfold region_from_address at h
    obtain ⟨hpx, l1, l2, heq, hl1⟩ := find?_first_match _ regions r h
    refine ⟨(regionOwns_iff r a).mp (by simpa using hpx), l1, l2, heq, ?_⟩
    intro r' hr'
    exact (regionOwns_false_iff r' a).mp (by simpa using hl1 r' hr')
  · rintro ⟨r, hr, hc⟩
    unfold region_from_address
    have : (List.find? (fun r => regionOwns r a) regions).isSome := by
      rw [List.find?_isSome]
      exact ⟨r, hr, by simpa using (regionOwns_iff r a).mpr hc⟩
    exact Option.isSome_iff_exists.mp this
  · intro h r hr
    exact (regionOwns_false_iff r a).mp (region_from_address_none h r hr)
  · intro h
    unfold region_from_address
    rw [List.find?_eq_none]
    intro r hr
    simpa using (regionOwns_false_iff r a).mpr (h r hr)

/-- Witness for C6: with two overlapping regions, both containing `0x1000`
and `exRegion` registered first, lookup at `0x1000` returns `exRegion` and
the theorem's first-match decomposition holds for it. -/
theorem region_lookup_first_match_witness :
    region_from_address [exRegion, exRegionB] 0x1000 = some exRegion ∧
    ((exRegion.base_address ≤ 0x1000 ∧
        0x1000 < (exRegion.base_address + exRegion.size) % U64) ∧
      ∃ l1 l2, [exRegion, exRegionB] = l1 ++ exRegion :: l2 ∧
        ∀ r' ∈ l1, ¬(r'.base_address ≤ 0x1000 ∧
          0x1000 < (r'.base_address + r'.size) % U64)) ∧
    (exRegionB.base_address ≤ 0x1000 ∧
      0x1000 < (exRegionB.base_address + exRegionB.size) % U64) := by
  refine ⟨rfl, (region_lookup_first_match [exRegion, exRegionB] 0x1000).1 exRegion rfl, ?_⟩
  constructor
  · decide
  · show 0x1000 < (0x0FFE + 4) % U64
    decide

/-- C1: for every fill request whose start address passes the tracked-range
check (`addr <= max_addr`, the only range check the code performs — the
spec's own `[0x0FFE,6)` example starts below `min_addr`), `loadFill` fills
every requested byte position: a position whose (64-bit) address is owned
by some loaded region receives that region's byte at the corresponding
region-relative offset, and a position owned by no region receives a zero
byte. -/
theorem loadFill_fills_every_position (ld : ArbitraryLoader)
    (hwf : ∀ r ∈ ld.regions, r.base_address < U64 ∧ r.size < U64)
    (addr : Nat) (size : Int) (pre : List Nat)
    (haddr : addr < U64) (hin : addr ≤ ld.max_addr) :
    size.toNat ≤ (loadFill ld addr size pre).length ∧
    ∀ j, j < size.toNat →
      (∃ r ∈ ld.regions, regionOwns r ((addr + j) % U64) = true ∧
          (loadFill ld addr size pre).getD j 0 =
            r.data ((addr + j) % U64 - r.base_address)) ∨
      ((∀ r ∈ ld.regions, regionOwns r ((addr + j) % U64) = false) ∧
          (loadFill ld addr size pre).getD j 0 = 0) := by
  have hcond : ¬ addr > ld.max_addr := by omega
  have hfill : loadFill ld addr size pre =
      loadFillLoop ld.regions size.toNat addr ++ List.drop size.toNat pre := by
    unfold loadFill
    rw [if_neg hcond]
  constructor
  · rw [hfill, List.length_append, loadFillLoop_length]
    omega
  · intro j hj
    have hlen : j < (loadFillLoop ld.regions size.toNat addr).length := by
      rw [loadFillLoop_length]
      exact hj
    rw [hfill, List.getD_append _ _ 0 j hlen]
    exact loadFillLoop_getD ld.regions hwf size.toNat addr haddr j hj

/-- Witness for C1 at the spec's own examples: the fill `[0x0FFE,6)` against
`exRegion` satisfies the per-position characterization and evaluates to two
leading zero bytes then `AA BB CC DD`; the fill `[0x1000,4)` returns
`AA BB CC DD` exactly. -/
theorem loadFill_fills_every_position_witness :
    ((0x0FFE : Nat) ≤ exLoader.max_addr) ∧
    ((6 : Int).toNat ≤ (loadFill exLoader 0x0FFE 6 [9, 9, 9, 9, 9, 9]).length ∧
      ∀ j, j < (6 : Int).toNat →
        (∃ r ∈ exLoader.regions, regionOwns r ((0x0FFE + j) % U64) = true ∧
            (loadFill exLoader 0x0FFE 6 [9, 9, 9, 9, 9, 9]).getD j 0 =
              r.data ((0x0FFE + j) % U64 - r.base_address)) ∨
        ((∀ r ∈ exLoader.regions, regionOwns r ((0x0FFE + j) % U64) = false) ∧
            (loadFill exLoader 0x0FFE 6 [9, 9, 9, 9, 9, 9]).getD j 0 = 0)) ∧
    loadFill exLoader 0x0FFE 6 [9, 9, 9, 9, 9, 9] = [0, 0, 0xAA, 0xBB, 0xCC, 0xDD] ∧
    loadFill exLoader 0x1000 4 [9, 9, 9, 9] = [0xAA, 0xBB, 0xCC, 0xDD] := by
  have hmax : exLoader.max_addr = 0x1004 := by decide
  have hregs : exLoader.regions = [exRegion] := rfl
  have htn6 : (6 : Int).toNat = 6 := rfl
  have htn4 : (4 : Int).toNat = 4 := rfl
  refine ⟨by decide,
    loadFill_fills_every_position exLoader (by decide) 0x0FFE 6 [9, 9, 9, 9, 9, 9]
      (by decide) (by decide), ?_, ?_⟩
  · norm_num [loadFill, hmax, hregs, htn6, htn4]
    rw [loadFillLoop]
    norm_num [region_from_address, List.find?, regionOwns, U64, exRegion]
    rw [loadFillLoop]
    norm_num [region_from_address, List.find?, regionOwns, U64, exRegion]
    rw [loadFillLoop]
    norm_num [region_from_address, List.find?, regionOwns, U64, exRegion, exData,
      List.range_succ, loadFillLoop]
  · norm_num [loadFill, hmax, hregs, htn6, htn4]
    rw [loadFillLoop]
    norm_num [region_from_address, List.find?, regionOwns, U64, exRegion, exData,
      List.range_succ, loadFillLoop]

/-- Counterexample to C2: the request `[0x10, 0x12)` lies entirely below the
tracked minimum `0x1000`, hence entirely outside the tracked mapped range,
yet `loadFill` zero-fills the caller's buffer instead of returning it
untouched — the early-out only fires for start addresses above `max_addr`. -/
theorem loadFill_outside_range_counterexample :
    0x10 + 2 ≤ exLoader.min_addr ∧ exLoader.min_addr ≤ exLoader.max_addr ∧
    loadFill exLoader 0x10 2 [7, 7] = [0, 0] ∧
    loadFill exLoader 0x10 2 [7, 7] ≠ [7, 7] := by
  have hmax : exLoader.max_addr = 0x1004 := by decide
  have hregs : exLoader.regions = [exRegion] := rfl
  have htn2 : (2 : Int).toNat = 2 := rfl
  have hv : loadFill exLoader 0x10 2 [7, 7] = [0, 0] := by
    norm_num [loadFill, hmax, hregs, htn2]
    rw [loadFillLoop]
    norm_num [region_from_address, List.find?, regionOwns, U64, exRegion]
    rw [loadFillLoop]
    norm_num [region_from_address, List.find?, regionOwns, U64, exRegion, loadFillLoop]
  refine ⟨by decide, by decide, hv, ?_⟩
  rw [hv]
  decide

/-- C2 (amended): a fill request whose start address is strictly above the
tracked maximum address returns immediately with the output buffer exactly
as the caller pre-seeded it.  (Requests below the tracked minimum are not
rejected; they are zero-filled, see the counterexample.) -/
theorem loadFill_above_max_returns_untouched (ld : ArbitraryLoader)
    (addr : Nat) (size : Int) (pre : List Nat) (h : ld.max_addr < addr) :
    loadFill ld addr size pre = pre := by
  unfold loadFill
  rw [if_pos h]

/-- Witness for the amended C2: a request at `0x2000`, above the tracked
maximum `0x1004`, leaves the pre-seeded buffer unchanged. -/
theorem loadFill_above_max_returns_untouched_witness :
    exLoader.max_addr < 0x2000 ∧
    loadFill exLoader 0x2000 4 [1, 2, 3, 4] = [1, 2, 3, 4] :=
  ⟨by decide, loadFill_above_max_returns_untouched exLoader 0x2000 4 [1, 2, 3, 4] (by decide)⟩

theorem base_fold_le (l : List MemoryDescription) :
    ∀ init : Nat,
      List.foldl (fun b r => if r.base_address < b then r.base_address else b) init l ≤ init ∧
      ∀ r ∈ l,
        List.foldl (fun b r => if r.base_address < b then r.base_address else b) init l ≤
          r.base_address := by
  induction l with
  | nil => intro init; simp
  | cons hd tl ih =>
    intro init
    rw [List.foldl_cons]
    obtain ⟨h1, h2⟩ := ih (if hd.base_address < init then hd.base_address else init)
    constructor
    · refine le_trans h1 ?_
      split <;> omega
    · intro r hr
      rcases List.mem_cons.mp hr with hr | hr
      · subst hr
        refine le_trans h1 ?_
        split <;> omega
      · exact h2 r hr

theorem loader_base_le (ld : ArbitraryLoader) :
    ∀ r ∈ ld.regions, ld.base ≤ r.base_address := by
  unfold ArbitraryLoader.base
  exact (base_fold_le ld.regions (U64 - 1)).2

theorem foldl_pcode_dump (a : Nat) :
    ∀ (ops : List PcodeOpData) (acc : List PcodeOp),
      ops.foldl (fun acc d => ArbitraryPcodeEmitter.dump acc a d.opcode d.output d.inputs) acc =
        acc ++ ops.map pcodeOpRecOf := by
  intro ops
  induction ops with
  | nil => intro acc; simp
  | cons hd tl ih =>
    intro acc
    rw [List.foldl_cons, ih]
    simp [ArbitraryPcodeEmitter.dump, pcodeOpRecOf]

theorem translate_next_some (eng : Nat → Option EngineInsn) (mgr : ArbitraryManager)
    (i : EngineInsn)
    (hi : eng (if mgr.current_translate_address = 0 then mgr.loader.base
          else mgr.current_translate_address) = some i) :
    translate_next eng mgr =
      (Except.ok
        { op_count := (mgr.pcode_emitter ++ i.ops.map pcodeOpRecOf).length,
          ops := mgr.pcode_emitter ++ i.ops.map pcodeOpRecOf,
          size := i.length, address := none,
          insn := some i.text, insn_len := i.text.length,
          body := some i.body, body_len := i.body.length },
        { loader := mgr.loader, pcode_emitter := [],
          asm_emitter := ArbitraryAsmEmitter.clear,
          current_translate_address :=
            ((if mgr.current_translate_address = 0 then mgr.loader.base
              else mgr.current_translate_address) + i.length) % U64 }) := by
  simp only [translate_next, hi, to_insn_desc, ArbitraryAsmEmitter.dump,
    foldl_pcode_dump]

theorem translate_next_none (eng : Nat → Option EngineInsn) (mgr : ArbitraryManager)
    (hi : eng (if mgr.current_translate_address = 0 then mgr.loader.base
          else mgr.current_translate_address) = none) :
    translate_next eng mgr =
      (Except.error (),
        { mgr with current_translate_address :=
            if mgr.current_translate_address = 0 then mgr.loader.base
            else mgr.current_translate_address }) := by
  simp only [translate_next, hi]

theorem lift_insn_some (eng : Nat → Option EngineInsn) (mgr : ArbitraryManager)
    (addr : Nat) (i : EngineInsn) (hi : eng addr = some i) :
    lift_insn eng mgr addr =
      (Except.ok (some
        { op_count := (mgr.pcode_emitter ++ i.ops.map pcodeOpRecOf).length,
          ops := mgr.pcode_emitter ++ i.ops.map pcodeOpRecOf,
          size := i.length, address := some addr,
          insn := some i.text, insn_len := i.text.length,
          body := some i.body, body_len := i.body.length }),
        { loader := mgr.loader, pcode_emitter := [],
          asm_emitter := ArbitraryAsmEmitter.clear,
          current_translate_address := mgr.current_translate_address }) := by
  simp only [lift_insn, hi, to_insn_desc, ArbitraryAsmEmitter.dump,
    foldl_pcode_dump]

theorem lift_insn_none (eng : Nat → Option EngineInsn) (mgr : ArbitraryManager)
    (addr : Nat) (hi : eng addr = none) :
    lift_insn eng mgr addr = (Except.ok none, mgr) := by
  simp only [lift_insn, hi]

/-- C3: on a fresh session (cursor still zero), the first `translate_next`
call decodes at `loader.base()` — a lower bound of every region's base
address, i.e. the lowest mapped address — and advances the cursor by exactly
the decoded instruction's length; the second call decodes at that new
cursor, so the two decode addresses are monotonically increasing, separated
by the first returned instruction's length. -/
theorem translate_next_monotone (eng : Nat → Option EngineInsn)
    (mgr : ArbitraryManager) (i1 i2 : EngineInsn)
    (hfresh : mgr.current_translate_address = 0)
    (h1 : eng mgr.loader.base = some i1)
    (hpos : 0 < i1.length)
    (hnw : mgr.loader.base + i1.length < U64)
    (h2 : eng (mgr.loader.base + i1.length) = some i2) :
    (∀ r ∈ mgr.loader.regions, mgr.loader.base ≤ r.base_address) ∧
    ∃ d1 d2,
      (translate_next eng mgr).1 = Except.ok d1 ∧
      d1.size = i1.length ∧ d1.insn = some i1.text ∧
      ((translate_next eng mgr).2).current_translate_address =
        mgr.loader.base + i1.length ∧
      (translate_next eng ((translate_next eng mgr).2)).1 = Except.ok d2 ∧
      d2.size = i2.length ∧ d2.insn = some i2.text ∧
      ((translate_next eng ((translate_next eng mgr).2)).2).current_translate_address =
        (mgr.loader.base + i1.length + i2.length) % U64 ∧
      mgr.loader.base < mgr.loader.base + i1.length := by
  have hne : mgr.loader.base + i1.length ≠ 0 := by omega
  have hmod : (mgr.loader.base + i1.length) % U64 = mgr.loader.base + i1.length :=
    Nat.mod_eq_of_lt hnw
  have hc0 : (if mgr.current_translate_address = 0 then mgr.loader.base
      else mgr.current_translate_address) = mgr.loader.base := by
    rw [hfresh]
    simp
  have hs1 := translate_next_some eng mgr i1 (by rw [hc0]; exact h1)
  rw [hc0, hmod] at hs1
  refine ⟨loader_base_le mgr.loader, ?_⟩
  have hs2 := translate_next_some eng
    { loader := mgr.loader, pcode_emitter := [],
      asm_emitter := ArbitraryAsmEmitter.clear,
      current_translate_address := mgr.loader.base + i1.length } i2
    (by simpa [hne] using h2)
  rw [hs1]
  dsimp only
  rw [hs2]
  dsimp only
  refine ⟨_, _, rfl, rfl, rfl, rfl, rfl, rfl, rfl, ?_, by omega⟩
  rw [if_neg hne]

/-- Witness for C3: on the example session (one region based at `0x1000`,
2-byte instruction there, 3-byte instruction at `0x1002`), the first call
decodes the instruction at `0x1000` and moves the cursor to `0x1002`; the
second call decodes the instruction there and moves the cursor to `0x1005`. -/
theorem translate_next_monotone_witness :
    (∀ r ∈ exManager.loader.regions, exManager.loader.base ≤ r.base_address) ∧
    ∃ d1 d2,
      (translate_next exEngine exManager).1 = Except.ok d1 ∧
      d1.size = 2 ∧ d1.insn = some "t1" ∧
      ((translate_next exEngine exManager).2).current_translate_address = 0x1002 ∧
      (translate_next exEngine ((translate_next exEngine exManager).2)).1 = Except.ok d2 ∧
      d2.size = 3 ∧ d2.insn = some "t2" ∧
      ((translate_next exEngine
          ((translate_next exEngine exManager).2)).2).current_translate_address = 0x1005 ∧
      (0x1000 : Nat) < 0x1002 :=
  translate_next_monotone exEngine exManager
    { length := 2, text := "t1", body := "b1", ops := [] }
    { length := 3, text := "t2", body := "b2", ops := [] }
    rfl rfl (by decide) (by decide) rfl

/-- C4: `lift_insn` never propagates a malformed-encoding failure: for every
address, the call returns normally (`Except.ok`, never `Except.error`); when
the engine reports no valid encoding (`eng addr = none`, the `BadDataError`
case) it returns a null result and leaves the whole session state unchanged;
and the decode cursor is preserved regardless of success or failure. -/
theorem lift_insn_catches_bad_data (eng : Nat → Option EngineInsn)
    (mgr : ArbitraryManager) (addr : Nat) :
    (∀ e, (lift_insn eng mgr addr).1 ≠ Except.error e) ∧
    (eng addr = none →
      (lift_insn eng mgr addr).1 = Except.ok none ∧ (lift_insn eng mgr addr).2 = mgr) ∧
    ((lift_insn eng mgr addr).2).current_translate_address =
      mgr.current_translate_address := by
  refine ⟨?_, ?_, ?_⟩
  · intro e
    cases hi : eng addr with
    | none => rw [lift_insn_none eng mgr addr hi]; simp
    | some i => rw [lift_insn_some eng mgr addr i hi]; simp
  · intro hi
    rw [lift_insn_none eng mgr addr hi]
    exact ⟨rfl, rfl⟩
  · cases hi : eng addr with
    | none => rw [lift_insn_none eng mgr addr hi]
    | some i => rw [lift_insn_some eng mgr addr i hi]

/-- Witness for C4: probing `0x1234` (no valid encoding there under
`exEngine`) returns a null result, not a failure, and the session state —
in particular the cursor — is untouched. -/
theorem lift_insn_catches_bad_data_witness :
    (lift_insn exEngine exManager 0x1234).1 = Except.ok none ∧
    (lift_insn exEngine exManager 0x1234).2 = exManager ∧
    ((lift_insn exEngine exManager 0x1234).2).current_translate_address =
      exManager.current_translate_address := by
  obtain ⟨h1, h2, h3⟩ := lift_insn_catches_bad_data exEngine exManager 0x1234
  obtain ⟨ha, hb⟩ := h2 rfl
  exact ⟨ha, hb, h3⟩

/-- C5: starting from cleared collectors, every decode operation — cursor
decode and address decode, successful or failed — returns with both
collectors cleared again, and a successful decode's descriptor holds exactly
the micro-operations of the instruction just decoded (nothing from an
earlier call). -/
theorem decode_ops_clear_collectors (eng : Nat → Option EngineInsn)
    (mgr : ArbitraryManager) (h : collectorsEmpty mgr) :
    collectorsEmpty (translate_next eng mgr).2 ∧
    (∀ addr, collectorsEmpty (lift_insn eng mgr addr).2) ∧
    (∀ i d, eng (if mgr.current_translate_address = 0 then mgr.loader.base
          else mgr.current_translate_address) = some i →
        (translate_next eng mgr).1 = Except.ok d →
        d.ops = i.ops.map pcodeOpRecOf ∧ d.op_count = i.ops.length) ∧
    (∀ addr i d, eng addr = some i →
        (lift_insn eng mgr addr).1 = Except.ok (some d) →
        d.ops = i.ops.map pcodeOpRecOf ∧ d.op_count = i.ops.length) := by
  obtain ⟨hp, ha⟩ := h
  refine ⟨?_, ?_, ?_, ?_⟩
  · cases hi : eng (if mgr.current_translate_address = 0 then mgr.loader.base
        else mgr.current_translate_address) with
    | none =>
      rw [translate_next_none eng mgr hi]
      exact ⟨hp, ha⟩
    | some i =>
      rw [translate_next_some eng mgr i hi]
      exact ⟨rfl, rfl⟩
  · intro addr
    cases hi : eng addr with
    | none =>
      rw [lift_insn_none eng mgr addr hi]
      exact ⟨hp, ha⟩
    | some i =>
      rw [lift_insn_some eng mgr addr i hi]
      exact ⟨rfl, rfl⟩
  · intro i d hi hd
    rw [translate_next_some eng mgr i hi] at hd
    dsimp only at hd
    injection hd with hd
    subst hd
    constructor
    · dsimp only
      rw [hp]
      simp
    · dsimp only
      rw [hp]
      simp
  · intro addr i d hi hd
    rw [lift_insn_some eng mgr addr i hi] at hd
    dsimp only at hd
    injection hd with hd
    injection hd with hd
    subst hd
    constructor
    · dsimp only
      rw [hp]
      simp
    · dsimp only
      rw [hp]
      simp

/-- Witness for C5: the fresh example session has cleared collectors, and
both a cursor decode and an address decode leave them cleared. -/
theorem decode_ops_clear_collectors_witness :
    collectorsEmpty exManager ∧
    collectorsEmpty (translate_next exEngine exManager).2 ∧
    collectorsEmpty (lift_insn exEngine exManager 0x1000).2 := by
  have hc : collectorsEmpty exManager := ⟨rfl, rfl⟩
  obtain ⟨h1, h2, _, _⟩ := decode_ops_clear_collectors exEngine exManager hc
  exact ⟨hc, h1, h2 0x1000⟩

/-- C9: on every successful address decode the returned descriptor's
`address` field equals the caller-given address; the shared descriptor
assembly `to_insn_desc` copies size, assembly text and body from the
collectors but never assigns `address` (it stays unassigned, `none`), so a
successful cursor decode returns a descriptor with the `address` field
unassigned. -/
theorem insn_desc_address_assignment (eng : Nat → Option EngineInsn)
    (mgr : ArbitraryManager) (addr : Nat) :
    (∀ m : ArbitraryManager, (to_insn_desc m).address = none) ∧
    (∀ i, eng addr = some i →
      ∃ d, (lift_insn eng mgr addr).1 = Except.ok (some d) ∧ d.address = some addr ∧
        d.size = i.length ∧ d.insn = some i.text ∧ d.body = some i.body) ∧
    (∀ i, eng (if mgr.current_translate_address = 0 then mgr.loader.base
          else mgr.current_translate_address) = some i →
      ∃ d, (translate_next eng mgr).1 = Except.ok d ∧ d.address = none ∧
        d.size = i.length ∧ d.insn = some i.text ∧ d.body = some i.body) := by
  refine ⟨fun m => rfl, ?_, ?_⟩
  · intro i hi
    rw [lift_insn_some eng mgr addr i hi]
    exact ⟨_, rfl, rfl, rfl, rfl, rfl⟩
  · intro i hi
    rw [translate_next_some eng mgr i hi]
    exact ⟨_, rfl, rfl, rfl, rfl, rfl⟩

/-- Witness for C9: decoding at `0x1000` with `lift_insn` yields a
descriptor whose `address` field is the caller-given `0x1000`. -/
theorem insn_desc_address_assignment_witness :
    ∃ d, (lift_insn exEngine exManager 0x1000).1 = Except.ok (some d) ∧
      d.address = some 0x1000 ∧ d.size = 2 ∧ d.insn = some "t1" ∧ d.body = some "b1" :=
  (insn_desc_address_assignment exEngine exManager 0x1000).2.1
    { length := 2, text := "t1", body := "b1", ops := [] } rfl

theorem strncpyBytes_length : ∀ (cap : Nat) (s : List Nat),
    (strncpyBytes cap s).length = cap := by
  intro cap
  induction cap with
  | zero => intro s; cases s <;> rfl
  | succ c ih =>
    intro s
    cases s with
    | nil => simp [strncpyBytes, ih]
    | cons b rest => simp [strncpyBytes, ih]

theorem strncpyBytes_eq_take_pad : ∀ (cap : Nat) (s : List Nat),
    strncpyBytes cap s = s.take cap ++ List.replicate (cap - s.length) 0 := by
  intro cap
  induction cap with
  | zero => intro s; cases s <;> simp [strncpyBytes]
  | succ c ih =>
    intro s
    cases s with
    | nil => simp [strncpyBytes, ih, List.replicate_succ]
    | cons b rest => simp [strncpyBytes, ih]

/-- C7: every string copied into a fixed-size exported field is a bounded
copy of at most the field's capacity — the stored field is always exactly
the capacity long (never a byte past it), holds the source truncated to the
capacity (zero-padded when shorter), and no overflow is signalled anywhere
in the copies' types; operand offsets and sizes are copied exactly, both by
the micro-op collector (16-byte space names) and by the register snapshot
(64-byte register names). -/
theorem bounded_field_copies :
    (∀ cap s, (strncpyBytes cap s).length = cap) ∧
    (∀ cap s, strncpyBytes cap s = s.take cap ++ List.replicate (cap - s.length) 0) ∧
    (∀ v : VarnodeData, (varnodeDescOf v).offset = v.offset ∧
      (varnodeDescOf v).size = v.size ∧
      (varnodeDescOf v).space.length = 16 ∧
      (varnodeDescOf v).space =
        v.spaceName.take 16 ++ List.replicate (16 - v.spaceName.length) 0) ∧
    (∀ pcode_ops addr opcode outp inputs,
      ArbitraryPcodeEmitter.dump pcode_ops addr opcode outp inputs =
        pcode_ops ++ [pcodeOpRecOf { opcode := opcode, output := outp, inputs := inputs }]) ∧
    (∀ regs, (get_all_registers regs).register_count = regs.length ∧
      (get_all_registers regs).registers = regs.map (fun p =>
        { name := strncpyBytes 64 p.2, varnode := varnodeDescOf p.1 }) ∧
      ∀ rd ∈ (get_all_registers regs).registers,
        rd.name.length = 64 ∧ rd.varnode.space.length = 16) := by
  refine ⟨strncpyBytes_length, strncpyBytes_eq_take_pad, ?_, ?_, ?_⟩
  · intro v
    exact ⟨rfl, rfl, strncpyBytes_length 16 _, strncpyBytes_eq_take_pad 16 _⟩
  · intro pcode_ops addr opcode outp inputs
    rfl
  · intro regs
    refine ⟨rfl, rfl, ?_⟩
    intro rd hrd
    unfold get_all_registers at hrd
    obtain ⟨p, _, hp⟩ := List.mem_map.mp hrd
    rw [← hp]
    exact ⟨strncpyBytes_length 64 _, strncpyBytes_length 16 _⟩

/-- C8: the foreign-call wrapper for setting a context-variable default never
returns or propagates a failure: for every oracle outcome the wrapper
returns `Except.ok` (its failure channel is never used); an engine failure
is converted into one line on the fixed output stream and discarded, a
success logs nothing — in both cases the caller-visible return value is the
same `()`, leaving no programmatic way to detect the failure. -/
theorem context_var_set_default_swallows
    (setVariableDefault : String → Nat → Except String Unit)
    (key : String) (value : Nat) :
    ∃ logs,
      arbitrary_manager_context_var_set_default setVariableDefault key value =
        Except.ok ((), logs) ∧
      (setVariableDefault key value = Except.ok () → logs = []) ∧
      (∀ err, setVariableDefault key value = Except.error err →
        logs = ["[libsla ERROR]: " ++ err]) := by
  cases hr : setVariableDefault key value with
  | ok u =>
    cases u
    refine ⟨[], ?_, fun _ => rfl, ?_⟩
    · unfold arbitrary_manager_context_var_set_default
      rw [hr]
    · intro err herr
      exact Except.noConfusion herr
  | error e =>
    refine ⟨["[libsla ERROR]: " ++ e], ?_, ?_, ?_⟩
    · unfold arbitrary_manager_context_var_set_default
      rw [hr]
    · intro hok
      exact Except.noConfusion hok
    · intro err herr
      injection herr with h
      rw [h]

/-- Witness for C8: with an oracle that always throws `boom`, the wrapper
still returns normally, logging the fixed-format line. -/
theorem context_var_set_default_swallows_witness :
    ∃ logs,
      arbitrary_manager_context_var_set_default exCtxSet "k" 5 = Except.ok ((), logs) ∧
      (exCtxSet "k" 5 = Except.ok () → logs = []) ∧
      (∀ err, exCtxSet "k" 5 = Except.error err → logs = ["[libsla ERROR]: " ++ err]) :=
  context_var_set_default_swallows exCtxSet "k" 5

/-- C10: the object-file accessors are a pure renaming layer: each one
returns the corresponding library value / structure field unchanged, and
equals the spec-side raw-field read. -/
theorem bfd_accessors_pass_through (abfd : Bfd) :
    get_section_count abfd = bfd_count_sections abfd ∧
    get_section_count abfd = sectionCountSpec abfd ∧
    get_start_address abfd = bfd_get_start_address abfd ∧
    get_start_address abfd = startAddressSpec abfd ∧
    get_sections abfd = sectionsSpec abfd ∧
    get_last_section abfd = lastSectionSpec abfd :=
  ⟨rfl, rfl, rfl, rfl, rfl, rfl⟩

/-- Witness for C7: a register whose name (70 bytes) and space name (20
bytes) both exceed their fields' capacities is stored with exactly 64- and
16-byte fields. -/
theorem bounded_field_copies_witness :
    (get_all_registers exRegs).register_count = 1 ∧
    ∀ rd ∈ (get_all_registers exRegs).registers,
      rd.name.length = 64 ∧ rd.varnode.space.length = 16 :=
  ⟨(bounded_field_copies.2.2.2.2 exRegs).1, (bounded_field_copies.2.2.2.2 exRegs).2.2⟩
